import Mathlib

/-!
# Verification of `HamilToniQ/benchmarking.py` (class `Toniq`)

Shallow embedding of the numerical core of `Toniq`:

* `get_Q_matirx`   — random symmetric matrix generation (the `dim*dim`
  uniform draws are passed explicitly as a list of rationals) together
  with the "hardness" diagnostic (normalized covariance terms);
* `get_ground_state` — exhaustive ground-state search over all binary
  vectors (`all_quantum_states` is imported from `utility`, which is not
  part of the sources; it is modelled from the spec);
* `get_reference` — the curve-building tail of the reference construction
  (the QAOA sampling producing the accuracy list is an external boundary);
* `build_scoring_function` — histogram / cumulative-sum / linear
  interpolation scorer.

Python floats are modelled as `Option ℚ`: `some q` is a finite float of
exact value `q`, `none` stands for a non-finite float (NaN or ±inf), which
numpy produces — without raising — on division by zero and on `sqrt` of a
negative number.  Exceptions raised by Python are modelled with
`Except PyError`.
-/

/-- Python exceptions that the embedded code can raise. -/
inductive PyError where
  /-- attribute lookup failed, e.g. `.size` on a Python `list` -/
  | attributeError : PyError
  /-- `ValueError`, e.g. scipy `interp1d` called outside its range -/
  | valueError : PyError
deriving DecidableEq, Repr

/-- Float addition on `Option ℚ`: non-finite operands propagate. -/
def fAdd : Option ℚ → Option ℚ → Option ℚ
  | some a, some b => some (a + b)
  | _, _ => none

/-- Float subtraction on `Option ℚ`: non-finite operands propagate. -/
def fSub : Option ℚ → Option ℚ → Option ℚ
  | some a, some b => some (a - b)
  | _, _ => none

/-- Float multiplication on `Option ℚ`: non-finite operands propagate. -/
def fMul : Option ℚ → Option ℚ → Option ℚ
  | some a, some b => some (a * b)
  | _, _ => none

/-- Float division on `Option ℚ`: division by zero yields a non-finite
float (±inf or NaN), and non-finite operands propagate. -/
def fDiv : Option ℚ → Option ℚ → Option ℚ
  | some a, some b => if b = 0 then none else some (a / b)
  | _, _ => none

/-- Entry `A[i][j]` of a matrix stored as a list of rows (0 outside). -/
def entry (A : List (List ℚ)) (i j : ℕ) : ℚ := (A.getD i []).getD j 0

/-- `np.array(draws).reshape(dim, dim)` : row `i` holds
`draws[i*dim .. i*dim+dim-1]`. -/
def list_reshape (draws : List ℚ) (dim : ℕ) : List (List ℚ) :=
  (List.range dim).map fun i => (List.range dim).map fun j => draws.getD (i * dim + j) 0

/-- `np.triu(A)` : keep the upper triangle (including the diagonal),
zero strictly below it. -/
def np_triu (A : List (List ℚ)) : List (List ℚ) :=
  (List.range A.length).map fun i =>
    (List.range A.length).map fun j => if i ≤ j then entry A i j else 0

/-- `A.T` for a square matrix. -/
def np_transpose (A : List (List ℚ)) : List (List ℚ) :=
  (List.range A.length).map fun i => (List.range A.length).map fun j => entry A j i

/-- `np.diag(A.diagonal())`. -/
def np_diag_diagonal (A : List (List ℚ)) : List (List ℚ) :=
  (List.range A.length).map fun i =>
    (List.range A.length).map fun j => if i = j then entry A i i else 0

/-- Entrywise sum of two same-shaped square matrices. -/
def mat_add (A B : List (List ℚ)) : List (List ℚ) :=
  (List.range A.length).map fun i =>
    (List.range A.length).map fun j => entry A i j + entry B i j

/-- Entrywise difference of two same-shaped square matrices. -/
def mat_sub (A B : List (List ℚ)) : List (List ℚ) :=
  (List.range A.length).map fun i =>
    (List.range A.length).map fun j => entry A i j - entry B i j

/-- The matrix built by `get_Q_matirx` from the `dim*dim` uniform draws:
`mat = np.triu(draws.reshape(dim, dim)); mat += mat.T - np.diag(mat.diagonal())`. -/
def Q_matrix (dim : ℕ) (draws : List ℚ) : List (List ℚ) :=
  let mat := list_reshape draws dim
  let mat := np_triu mat
  mat_add mat (mat_sub (np_transpose mat) (np_diag_diagonal mat))

/-- One term `mat[i, j] / np.sqrt(mat[i, i] * mat[j, j])` of the
normalized covariance.  Since `√` of a positive rational need not be
rational, the term is kept symbolically as its numerator `num = mat[i,j]`
and the radicand `rad = mat[i,i] * mat[j,j]` of its denominator. -/
structure NCTerm where
  num : ℚ
  rad : ℚ
deriving DecidableEq, Repr

/-- A normalized-covariance term is a finite float exactly when the
radicand of its denominator is positive: `rad = 0` divides by zero
(±inf or NaN), `rad < 0` takes `sqrt` of a negative number (NaN). -/
def NCTerm.isFinite (t : NCTerm) : Bool := decide (0 < t.rad)

/-- `[mat[i, j] / np.sqrt(mat[i, i] * mat[j, j]) for i in range(len(mat)) for j in range(i + 1)]`. -/
def normalized_covariance (mat : List (List ℚ)) : List NCTerm :=
  (List.range mat.length).flatMap fun i =>
    (List.range (i + 1)).map fun j => ⟨entry mat i j, entry mat i i * entry mat j j⟩

/-- `Toniq.get_Q_matirx`, with the `dim*dim` random uniform draws passed
explicitly.  The body raises no exception: printing the hardness (the
variance of the normalized covariance) never raises in numpy even when
its terms are non-finite, so the result is always `Except.ok`. -/
def get_Q_matirx (dim : ℕ) (draws : List ℚ) : Except PyError (List (List ℚ)) :=
  Except.ok (Q_matrix dim draws)

/-! ## Ground-state search -/

/-- Modelled from the spec: `all_quantum_states` is imported from
`utility`, which is not among the sources.  The spec fixes it to
enumerate all `2^n` binary vectors of length `n` in increasing decimal
order, bit `i` of the integer index mapping to vector component `i`. -/
def all_quantum_states (n : ℕ) : List (List ℚ) :=
  (List.range (2 ^ n)).map fun k => (List.range n).map fun i => ((k / 2 ^ i % 2 : ℕ) : ℚ)

/-- `np.dot` of two vectors. -/
def np_dot (a b : List ℚ) : ℚ := (List.zipWith (· * ·) a b).sum

/-- The energy `np.dot(state, np.dot(Q, state))` of a binary vector. -/
def energy (Q : List (List ℚ)) (state : List ℚ) : ℚ :=
  np_dot state (Q.map fun row => np_dot row state)

/-- Minimum value of a list (`0` for the empty list, which `np.argmin`
rejects anyway). -/
def listMin : List ℚ → ℚ
  | [] => 0
  | [a] => a
  | a :: b :: l => min a (listMin (b :: l))

/-- `np.argmin`: index of the first occurrence of the minimum. -/
def np_argmin : List ℚ → ℕ
  | [] => 0
  | [_] => 0
  | a :: b :: l => if a ≤ listMin (b :: l) then 0 else np_argmin (b :: l) + 1

/-- Binary digits of `k`, most significant first (`[]` for `0`):
the digits of `bin(k)` after the `0b` prefix, except that Python
renders `0` as `"0"` (see `pyBin`). -/
def bits : ℕ → List ℕ
  | 0 => []
  | k + 1 => bits ((k + 1) / 2) ++ [(k + 1) % 2]
decreasing_by exact Nat.div_lt_self (Nat.succ_pos k) one_lt_two

/-- The digit string `bin(k)[2:]` as a list of binary digits. -/
def pyBin (k : ℕ) : List ℕ := if k = 0 then [0] else bits k

/-- Python format `f"{s:0>{w}}"`: left-pad with `0` up to width `w`
(never truncates). -/
def pad_left (w : ℕ) (l : List ℕ) : List ℕ := List.replicate (w - l.length) 0 ++ l

/-- Value of a most-significant-first binary digit string. -/
def from_bin (l : List ℕ) : ℕ := l.foldl (fun acc d => 2 * acc + d) 0

/-- The dict returned by `Toniq.get_ground_state` (the binary string is
kept as its list of binary digits). -/
structure GroundState where
  bin_state : List ℕ
  dec_state : ℕ
  energy : ℚ
deriving DecidableEq, Repr

/-- `Toniq.get_ground_state`: evaluate the energy of every candidate
binary vector, take the first index achieving the minimum, and package
the record. -/
def get_ground_state (Q : List (List ℚ)) : GroundState :=
  let n_qubits := Q.length
  let energy_list := (all_quantum_states n_qubits).map (energy Q)
  let dec_min := np_argmin energy_list
  { bin_state := pad_left n_qubits (pyBin dec_min)
    dec_state := dec_min
    energy := energy_list.getD dec_min 0 }

/-! ## Score curve and scorer -/

/-- `np.linspace(0, 1, nb + 1)`: the `nb + 1` uniform bin edges of `[0, 1]`. -/
def np_linspace01 (nb : ℕ) : List ℚ :=
  (List.range (nb + 1)).map fun (j : ℕ) => (j : ℚ) / (nb : ℚ)

/-- `np.histogram(data, bins=edges)[0]`: per-bin counts.  Every bin is
half-open `[lo, hi)` except the last, which is closed `[lo, hi]`;
values outside the edges are not counted. -/
def np_histogram (data : List ℚ) (edges : List ℚ) : List ℕ :=
  (List.range (edges.length - 1)).map fun i =>
    let lo := edges.getD i 0
    let hi := edges.getD (i + 1) 0
    if i + 2 = edges.length then
      (data.filter fun x => decide (lo ≤ x) && decide (x ≤ hi)).length
    else
      (data.filter fun x => decide (lo ≤ x) && decide (x < hi)).length

/-- `np.divide(counts, n)` with integer `n`: true division, so `n = 0`
yields non-finite floats (`0/0 = NaN`) instead of raising. -/
def np_divide_by (counts : List ℕ) (n : ℕ) : List (Option ℚ) :=
  counts.map fun c => if n = 0 then none else some ((c : ℚ) / n)

/-- `np.cumsum` on floats, non-finite values propagating. -/
def np_cumsum (l : List (Option ℚ)) : List (Option ℚ) :=
  go (some 0) l
where
  go (acc : Option ℚ) : List (Option ℚ) → List (Option ℚ)
    | [] => []
    | a :: as => let s := fAdd acc a; s :: go s as

/-- A scipy `interp1d(x, y, kind="linear")` object: the control points. -/
structure Scorer where
  xs : List ℚ
  ys : List (Option ℚ)
deriving DecidableEq, Repr

/-- `interpolate.interp1d(xs, ys, kind="linear")`. -/
def interp1d (xs : List ℚ) (ys : List (Option ℚ)) : Scorer := ⟨xs, ys⟩

/-- `np.searchsorted(l, v)` (side `left`) for a sorted list `l`: the
least index `j` with `v ≤ l[j]`, or `l.length` if there is none. -/
def np_searchsorted (l : List ℚ) (v : ℚ) : ℕ :=
  match l with
  | [] => 0
  | a :: as => if v ≤ a then 0 else np_searchsorted as v + 1

/-- Calling a scipy linear `interp1d` at `x` (with the default
`bounds_error=True`): raise `ValueError` when `x` lies outside
`[xs[0], xs[-1]]`; otherwise locate the bracketing interval with
`searchsorted` clipped to `[1, len(xs) - 1]` and interpolate linearly,
non-finite control values propagating to a non-finite result. -/
def Scorer.score (sc : Scorer) (x : ℚ) : Except PyError (Option ℚ) :=
  if x < sc.xs.getD 0 0 ∨ sc.xs.getD (sc.xs.length - 1) 0 < x then
    Except.error PyError.valueError
  else
    let idx := min (max (np_searchsorted sc.xs x) 1) (sc.xs.length - 1)
    let lo := idx - 1
    let x_lo := sc.xs.getD lo 0
    let x_hi := sc.xs.getD idx 0
    let y_lo := sc.ys.getD lo none
    let y_hi := sc.ys.getD idx none
    let slope := fDiv (fSub y_hi y_lo) (some (x_hi - x_lo))
    Except.ok (fAdd (fMul slope (some (x - x_lo))) y_lo)

/-- The 201 control values of the scoring curve built from `data`:
histogram over 200 bins, normalization by the sample count
(`np.shape(data)[0]`, i.e. `data.length` — NaN throughout when it is 0),
cumulative sum, and a prepended exact `0`. -/
def scoring_curve (data : List ℚ) : List (Option ℚ) :=
  some 0 :: np_cumsum (np_divide_by (np_histogram data (np_linspace01 200)) data.length)

/-- `Toniq.build_scoring_function`.  The `n_boxes` parameter is dead:
the body starts with `n_boxes = 200`, unconditionally overwriting it. -/
def build_scoring_function (data : List ℚ) (n_boxes : ℕ) : Scorer :=
  let nb := 200
  let hist_x := np_linspace01 nb
  let hist_y := np_histogram data hist_x
  let hist_y := np_divide_by hist_y data.length
  let cumulative_score := np_cumsum hist_y
  interp1d hist_x (some 0 :: cumulative_score)

/-- `accuracy_list.size`: `accuracy_list` is a Python `list` (built by
`append` in a loop), and Python lists have no attribute `size` (numpy
arrays do), so this attribute access raises `AttributeError`. -/
def list_size (_ : List ℚ) : Except PyError ℕ := Except.error PyError.attributeError

/-- The curve-building tail of `Toniq.get_reference` (lines 129–145),
started from the accuracy list that the QAOA sampling loop collected
(that sampling is the external collaborator boundary): histogram into
200 bins, divide by `accuracy_list.size`, cumulative sum, prepend 0. -/
def get_reference_curve (accuracy_list : List ℚ) : Except PyError (List (Option ℚ)) := do
  let n_boxes := 200
  let hist_x := np_linspace01 n_boxes
  let hist_y := np_histogram accuracy_list hist_x
  let sz ← list_size accuracy_list
  let hist_y2 := np_divide_by hist_y sz
  let cumulative_score := np_cumsum hist_y2
  return some 0 :: cumulative_score

/-! ## List access helpers -/

lemma getD_range_map {α : Type} (n i : ℕ) (f : ℕ → α) (d : α) (h : i < n) :
    ((List.range n).map f).getD i d = f i := by
  have hlen : i < ((List.range n).map f).length := by simpa using h
  rw [List.getD_eq_getElem _ _ hlen]
  simp

lemma length_range_map {α : Type} (n : ℕ) (f : ℕ → α) :
    ((List.range n).map f).length = n := by simp

/-! ## Matrix entry lemmas -/

lemma entry_of_ranges (n : ℕ) (f : ℕ → ℕ → ℚ) {i j : ℕ} (hi : i < n) (hj : j < n) :
    entry ((List.range n).map fun i => (List.range n).map fun j => f i j) i j = f i j := by
  unfold entry
  rw [getD_range_map n i _ _ hi, getD_range_map n j _ _ hj]

lemma length_list_reshape (draws : List ℚ) (dim : ℕ) :
    (list_reshape draws dim).length = dim := by
  simp [list_reshape]

lemma length_np_triu (A : List (List ℚ)) : (np_triu A).length = A.length := by
  simp [np_triu]

lemma length_np_transpose (A : List (List ℚ)) : (np_transpose A).length = A.length := by
  simp [np_transpose]

lemma entry_np_triu (A : List (List ℚ)) {i j : ℕ} (hi : i < A.length) (hj : j < A.length) :
    entry (np_triu A) i j = if i ≤ j then entry A i j else 0 :=
  entry_of_ranges A.length _ hi hj

lemma entry_np_transpose (A : List (List ℚ)) {i j : ℕ} (hi : i < A.length) (hj : j < A.length) :
    entry (np_transpose A) i j = entry A j i :=
  entry_of_ranges A.length _ hi hj

lemma entry_np_diag_diagonal (A : List (List ℚ)) {i j : ℕ}
    (hi : i < A.length) (hj : j < A.length) :
    entry (np_diag_diagonal A) i j = if i = j then entry A i i else 0 :=
  entry_of_ranges A.length _ hi hj

lemma entry_mat_add (A B : List (List ℚ)) {i j : ℕ} (hi : i < A.length) (hj : j < A.length) :
    entry (mat_add A B) i j = entry A i j + entry B i j :=
  entry_of_ranges A.length _ hi hj

lemma entry_mat_sub (A B : List (List ℚ)) {i j : ℕ} (hi : i < A.length) (hj : j < A.length) :
    entry (mat_sub A B) i j = entry A i j - entry B i j :=
  entry_of_ranges A.length _ hi hj

lemma length_Q_matrix (dim : ℕ) (draws : List ℚ) : (Q_matrix dim draws).length = dim := by
  simp [Q_matrix, mat_add, length_np_triu, length_list_reshape]

/-- Closed form for the entries of the generated matrix. -/
lemma entry_Q_matrix (dim : ℕ) (draws : List ℚ) {i j : ℕ} (hi : i < dim) (hj : j < dim) :
    entry (Q_matrix dim draws) i j =
      (if i ≤ j then entry (list_reshape draws dim) i j else 0) +
        ((if j ≤ i then entry (list_reshape draws dim) j i else 0) -
          if i = j then entry (list_reshape draws dim) i i else 0) := by
  have hR := length_list_reshape draws dim
  set R := list_reshape draws dim with hRdef
  have hii' : i < R.length := by rw [hR]; exact hi
  have hjj' : j < R.length := by rw [hR]; exact hj
  have hU : (np_triu R).length = dim := by rw [length_np_triu, hR]
  have hT : (np_transpose (np_triu R)).length = dim := by rw [length_np_transpose, hU]
  have hi' : i < (np_triu R).length := by rw [hU]; exact hi
  have hj' : j < (np_triu R).length := by rw [hU]; exact hj
  have hiT : i < (np_transpose (np_triu R)).length := by rw [hT]; exact hi
  have hjT : j < (np_transpose (np_triu R)).length := by rw [hT]; exact hj
  show entry (mat_add (np_triu R) (mat_sub (np_transpose (np_triu R))
    (np_diag_diagonal (np_triu R)))) i j = _
  rw [entry_mat_add _ _ hi' hj',
    entry_mat_sub _ _ hiT hjT,
    entry_np_transpose _ hi' hj',
    entry_np_diag_diagonal _ hi' hj',
    entry_np_triu _ hii' hjj', entry_np_triu _ hjj' hii', entry_np_triu _ hii' hii']
  simp

/-! ## `np.argmin` lemmas -/

lemma listMin_cons_cons (a b : ℚ) (l : List ℚ) :
    listMin (a :: b :: l) = min a (listMin (b :: l)) := rfl

lemma listMin_le_getD : ∀ (l : List ℚ) (k : ℕ), k < l.length → listMin l ≤ l.getD k 0
  | [], k, hk => by simp at hk
  | [a], 0, _ => by simp [listMin]
  | [a], k + 1, hk => by exact absurd hk (by simp)
  | a :: b :: l, 0, _ => by
      rw [listMin_cons_cons]
      exact min_le_left _ _
  | a :: b :: l, k + 1, hk => by
      rw [listMin_cons_cons]
      have hk' : k < (b :: l).length := by simpa using hk
      exact le_trans (min_le_right _ _) (listMin_le_getD (b :: l) k hk')

lemma np_argmin_lt_length : ∀ (l : List ℚ), l ≠ [] → np_argmin l < l.length
  | [], h => absurd rfl h
  | [a], _ => by simp [np_argmin]
  | a :: b :: l, _ => by
      rw [show np_argmin (a :: b :: l)
          = if a ≤ listMin (b :: l) then 0 else np_argmin (b :: l) + 1 from rfl]
      split
      · simp
      · have := np_argmin_lt_length (b :: l) (by simp)
        simpa using Nat.succ_lt_succ this

lemma getD_np_argmin : ∀ (l : List ℚ), l ≠ [] → l.getD (np_argmin l) 0 = listMin l
  | [], h => absurd rfl h
  | [a], _ => by simp [np_argmin, listMin]
  | a :: b :: l, _ => by
      rw [listMin_cons_cons,
        show np_argmin (a :: b :: l)
          = if a ≤ listMin (b :: l) then 0 else np_argmin (b :: l) + 1 from rfl]
      split
      · next h => simp [min_eq_left h]
      · next h =>
          have hmin : min a (listMin (b :: l)) = listMin (b :: l) :=
            min_eq_right (le_of_lt (lt_of_not_le h))
          rw [hmin]
          simpa using getD_np_argmin (b :: l) (by simp)

lemma np_argmin_first :
    ∀ (l : List ℚ) (k : ℕ), k < l.length → l.getD k 0 ≤ listMin l → np_argmin l ≤ k
  | [], k, hk, _ => by simp at hk
  | [a], k, hk, _ => by simp [np_argmin]
  | a :: b :: l, k, hk, hle => by
      rw [show np_argmin (a :: b :: l)
          = if a ≤ listMin (b :: l) then 0 else np_argmin (b :: l) + 1 from rfl]
      split
      · exact Nat.zero_le k
      · next h =>
          match k with
          | 0 =>
              exfalso
              apply h
              calc a = (a :: b :: l).getD 0 0 := rfl
                _ ≤ listMin (a :: b :: l) := hle
                _ ≤ listMin (b :: l) := by
                    rw [listMin_cons_cons]; exact min_le_right _ _
          | k + 1 =>
              have hk' : k < (b :: l).length := by simpa using hk
              have hle' : (b :: l).getD k 0 ≤ listMin (b :: l) := by
                have h1 : (a :: b :: l).getD (k + 1) 0 = (b :: l).getD k 0 := rfl
                have h2 : listMin (a :: b :: l) ≤ listMin (b :: l) := by
                  rw [listMin_cons_cons]; exact min_le_right _ _
                exact le_trans (h1 ▸ hle) h2
              exact Nat.succ_le_succ (np_argmin_first (b :: l) k hk' hle')

/-! ## Binary digit-string lemmas -/

lemma bits_succ (k : ℕ) : bits (k + 1) = bits ((k + 1) / 2) ++ [(k + 1) % 2] := by
  rw [bits]

lemma bits_length_le : ∀ (n k : ℕ), k < 2 ^ n → (bits k).length ≤ n := by
  intro n
  induction n with
  | zero =>
      intro k hk
      interval_cases k
      simp [bits]
  | succ n ih =>
      intro k hk
      match k with
      | 0 => simp [bits]
      | m + 1 =>
          rw [bits_succ]
          have hdiv : (m + 1) / 2 < 2 ^ n := by
            rw [Nat.div_lt_iff_lt_mul (by norm_num)]
            calc m + 1 < 2 ^ (n + 1) := hk
              _ = 2 ^ n * 2 := by ring
          have := ih _ hdiv
          simp only [List.length_append, List.length_singleton]
          omega

lemma foldl_bin_append_singleton (l : List ℕ) (a d : ℕ) :
    (l ++ [d]).foldl (fun acc d => 2 * acc + d) a
      = 2 * l.foldl (fun acc d => 2 * acc + d) a + d := by
  rw [List.foldl_append]
  rfl

lemma from_bin_bits : ∀ k : ℕ, from_bin (bits k) = k := by
  intro k
  induction k using Nat.strong_induction_on with
  | _ k ih =>
      match k with
      | 0 => simp [bits, from_bin]
      | m + 1 =>
          rw [bits_succ]
          unfold from_bin
          rw [foldl_bin_append_singleton]
          have hdiv : (m + 1) / 2 < m + 1 := Nat.div_lt_self (Nat.succ_pos m) one_lt_two
          have := ih _ hdiv
          unfold from_bin at this
          rw [this]
          omega

lemma foldl_bin_replicate_zero : ∀ m : ℕ,
    (List.replicate m 0).foldl (fun acc d => 2 * acc + d) 0 = 0 := by
  intro m
  induction m with
  | zero => rfl
  | succ m ih => simpa [List.replicate_succ] using ih

lemma from_bin_pad_left (w : ℕ) (l : List ℕ) : from_bin (pad_left w l) = from_bin l := by
  unfold from_bin pad_left
  rw [List.foldl_append, foldl_bin_replicate_zero]

lemma pad_left_length (w : ℕ) (l : List ℕ) (h : l.length ≤ w) :
    (pad_left w l).length = w := by
  simp [pad_left]
  omega

lemma bits_digits : ∀ (k : ℕ), ∀ d ∈ bits k, d = 0 ∨ d = 1 := by
  intro k
  induction k using Nat.strong_induction_on with
  | _ k ih =>
      match k with
      | 0 => simp [bits]
      | m + 1 =>
          rw [bits_succ]
          intro d hd
          rcases List.mem_append.1 hd with h | h
          · exact ih _ (Nat.div_lt_self (Nat.succ_pos m) one_lt_two) d h
          · have : d = (m + 1) % 2 := by simpa using h
            rw [this]
            omega

lemma pad_left_digits (w : ℕ) (l : List ℕ) (hl : ∀ d ∈ l, d = 0 ∨ d = 1) :
    ∀ d ∈ pad_left w l, d = 0 ∨ d = 1 := by
  intro d hd
  rcases List.mem_append.1 hd with h | h
  · left; exact List.eq_of_mem_replicate h
  · exact hl d h

/-! ## `np.searchsorted` and `np.linspace` lemmas -/

lemma np_searchsorted_le_length (l : List ℚ) (v : ℚ) : np_searchsorted l v ≤ l.length := by
  induction l with
  | nil => simp [np_searchsorted]
  | cons a as ih =>
      rw [np_searchsorted]
      split
      · simp
      · simpa using Nat.succ_le_succ ih

lemma np_searchsorted_getD (l : List ℚ) (v : ℚ) (h : np_searchsorted l v < l.length) :
    v ≤ l.getD (np_searchsorted l v) 0 := by
  induction l with
  | nil => simp at h
  | cons a as ih =>
      by_cases hva : v ≤ a
      · rw [np_searchsorted, if_pos hva]
        simpa using hva
      · rw [np_searchsorted, if_neg hva] at h ⊢
        have h' : np_searchsorted as v < as.length := by simpa using h
        simpa using ih h'

lemma np_searchsorted_getD_lt (l : List ℚ) (v : ℚ) (k : ℕ) (h : k < np_searchsorted l v) :
    l.getD k 0 < v := by
  induction l generalizing k with
  | nil => simp [np_searchsorted] at h
  | cons a as ih =>
      rw [np_searchsorted] at h
      split at h
      · omega
      · next hva =>
          match k with
          | 0 => simpa using lt_of_not_le hva
          | k + 1 =>
              have h' : k < np_searchsorted as v := by omega
              simpa using ih k h'

lemma np_searchsorted_min (l : List ℚ) (v : ℚ) (j : ℕ) (hj : j < l.length)
    (h : v ≤ l.getD j 0) : np_searchsorted l v ≤ j := by
  induction l generalizing j with
  | nil => simp at hj
  | cons a as ih =>
      rw [np_searchsorted]
      split
      · exact Nat.zero_le j
      · next hva =>
          match j with
          | 0 => exact absurd (by simpa using h) hva
          | j + 1 =>
              have hj' : j < as.length := by simpa using hj
              exact Nat.succ_le_succ (ih j hj' (by simpa using h))

lemma length_np_linspace01 (nb : ℕ) : (np_linspace01 nb).length = nb + 1 := by
  unfold np_linspace01
  rw [List.length_map, List.length_range]

lemma getD_np_linspace01 (nb j : ℕ) (h : j ≤ nb) :
    (np_linspace01 nb).getD j 0 = (j : ℚ) / nb := by
  unfold np_linspace01
  exact getD_range_map (nb + 1) j _ 0 (Nat.lt_succ_of_le h)

/-! ## Linear-interpolation bracketing -/

lemma getD_linspace200 (j : ℕ) (h : j ≤ 200) :
    (np_linspace01 200).getD j 0 = (j : ℚ) / 200 := by
  rw [getD_np_linspace01 200 j h]
  push_cast
  ring

/-- Calling a linear `interp1d` over the 201 uniform control points at an
in-range `x` locates a bracketing bin `[i/200, (i+1)/200]` and returns the
linear-interpolation formula between the control values at its ends. -/
lemma interp_bracket (ys : List (Option ℚ)) (x : ℚ) (h0 : 0 ≤ x) (h1 : x ≤ 1) :
    ∃ i : ℕ, i < 200 ∧ (i : ℚ) / 200 ≤ x ∧ x ≤ ((i : ℚ) + 1) / 200 ∧
      (Scorer.mk (np_linspace01 200) ys).score x =
        Except.ok (fAdd (fMul (fDiv (fSub (ys.getD (i + 1) none) (ys.getD i none))
          (some (((i : ℚ) + 1) / 200 - (i : ℚ) / 200))) (some (x - (i : ℚ) / 200)))
          (ys.getD i none)) := by
  have hlen : (np_linspace01 200).length = 201 := length_np_linspace01 200
  have hg0 : (np_linspace01 200).getD 0 0 = 0 := by
    rw [getD_linspace200 0 (by omega)]
    norm_num
  have hg200 : (np_linspace01 200).getD 200 0 = 1 := by
    rw [getD_linspace200 200 (by omega)]
    norm_num
  set s := np_searchsorted (np_linspace01 200) x with hs
  have hs_le : s ≤ 200 := by
    apply np_searchsorted_min _ _ 200 (by omega)
    rw [hg200]; exact h1
  have hsl : s < (np_linspace01 200).length := by omega
  set idx := min (max s 1) 200 with hidx
  have hidx1 : 1 ≤ idx := by omega
  have hidx200 : idx ≤ 200 := by omega
  have e1 : idx - 1 + 1 = idx := by omega
  have hlow : (np_linspace01 200).getD (idx - 1) 0 ≤ x := by
    rcases Nat.eq_zero_or_pos s with hs0 | hs1
    · have h10 : idx - 1 = 0 := by omega
      rw [h10, hg0]
      exact h0
    · have hidxs : idx = s := by omega
      rw [hidxs]
      exact le_of_lt (np_searchsorted_getD_lt _ x (s - 1) (by omega))
  have hhigh : x ≤ (np_linspace01 200).getD idx 0 := by
    rcases Nat.eq_zero_or_pos s with hs0 | hs1
    · have hidx1' : idx = 1 := by omega
      have hx0 : x ≤ (np_linspace01 200).getD 0 0 := by
        have := np_searchsorted_getD _ x hsl
        rwa [← hs, hs0] at this
      rw [hg0] at hx0
      rw [hidx1', getD_linspace200 1 (by omega)]
      calc x ≤ 0 := hx0
        _ ≤ ((1 : ℕ) : ℚ) / 200 := by norm_num
    · have hidxs : idx = s := by omega
      rw [hidxs]
      exact np_searchsorted_getD _ x hsl
  have e2 : (np_linspace01 200).getD (idx - 1) 0 = ((idx - 1 : ℕ) : ℚ) / 200 :=
    getD_linspace200 (idx - 1) (by omega)
  have e3 : (np_linspace01 200).getD idx 0 = (((idx - 1 : ℕ) : ℚ) + 1) / 200 := by
    rw [getD_linspace200 idx (by omega), ← e1]
    push_cast
    ring
  have hguard : ¬ (x < (np_linspace01 200).getD 0 0 ∨
      (np_linspace01 200).getD ((np_linspace01 200).length - 1) 0 < x) := by
    rw [hg0, hlen]
    have h201 : (201 : ℕ) - 1 = 200 := by omega
    rw [h201, hg200]
    push_neg
    exact ⟨h0, h1⟩
  refine ⟨idx - 1, by omega, ?_, ?_, ?_⟩
  · rw [← e2]
    exact hlow
  · rw [← e3]
    exact hhigh
  · dsimp only [Scorer.score]
    rw [if_neg hguard]
    have hidx_eq : min (max (np_searchsorted (np_linspace01 200) x) 1)
        ((np_linspace01 200).length - 1) = idx := by
      rw [hlen]
    rw [hidx_eq, e1, e2, e3]

/-! ## Remaining helper lemmas -/

lemma getD_map_lt {α β : Type} (l : List α) (f : α → β) (k : ℕ) (hk : k < l.length)
    (d : β) (d' : α) : (l.map f).getD k d = f (l.getD k d') := by
  rw [List.getD_eq_getElem _ _ (by simpa using hk), List.getD_eq_getElem _ _ hk]
  simp

lemma length_energy_list (Q : List (List ℚ)) :
    ((all_quantum_states Q.length).map (energy Q)).length = 2 ^ Q.length := by
  unfold all_quantum_states
  rw [List.length_map, List.length_map, List.length_range]

lemma get_ground_state_energy_def (Q : List (List ℚ)) :
    (get_ground_state Q).energy = ((all_quantum_states Q.length).map (energy Q)).getD
      (np_argmin ((all_quantum_states Q.length).map (energy Q))) 0 := rfl

lemma get_ground_state_dec_def (Q : List (List ℚ)) :
    (get_ground_state Q).dec_state
      = np_argmin ((all_quantum_states Q.length).map (energy Q)) := rfl

lemma get_ground_state_bin_def (Q : List (List ℚ)) :
    (get_ground_state Q).bin_state = pad_left Q.length
      (pyBin (np_argmin ((all_quantum_states Q.length).map (energy Q)))) := rfl

lemma fAdd_none_right (a : Option ℚ) : fAdd a none = none := by cases a <;> rfl

lemma getD_replicate_none (m j : ℕ) :
    (List.replicate m (none : Option ℚ)).getD j none = none := by
  induction m generalizing j with
  | zero => rfl
  | succ m ih =>
      match j with
      | 0 => rfl
      | j + 1 => exact ih j

lemma build_scoring_function_eq (data : List ℚ) (n_boxes : ℕ) :
    build_scoring_function data n_boxes
      = Scorer.mk (np_linspace01 200) (scoring_curve data) := rfl

/-- A scorer over the 201 uniform control points rejects out-of-range
arguments with a `ValueError`. -/
lemma score_out_of_bounds (ys : List (Option ℚ)) (x : ℚ) (hx : x < 0 ∨ 1 < x) :
    (Scorer.mk (np_linspace01 200) ys).score x = Except.error PyError.valueError := by
  have hg0 : (np_linspace01 200).getD 0 0 = 0 := by
    rw [getD_linspace200 0 (by omega)]
    norm_num
  have hg200 : (np_linspace01 200).getD 200 0 = 1 := by
    rw [getD_linspace200 200 (by omega)]
    norm_num
  have hguard : x < (np_linspace01 200).getD 0 0 ∨
      (np_linspace01 200).getD ((np_linspace01 200).length - 1) 0 < x := by
    rw [hg0, length_np_linspace01]
    have h201 : 200 + 1 - 1 = 200 := by omega
    rw [h201, hg200]
    exact hx
  dsimp only [Scorer.score]
  rw [if_pos hguard]

/-! ## Claim theorems -/

/-- C3: for every `dim ≥ 1` and bounds `lower ≤ upper`, the matrix
returned by `get_Q_matirx` (built from `dim*dim` draws, each within the
bounds) is exactly symmetric: `M[i][j] = M[j][i]` for all `i, j < dim`. -/
theorem get_Q_matirx_symmetric (dim : ℕ) (lower upper : ℚ) (draws : List ℚ)
    (hdim : 1 ≤ dim) (hlu : lower ≤ upper) (hlen : draws.length = dim * dim)
    (hrange : ∀ q ∈ draws, lower ≤ q ∧ q ≤ upper) :
    ∃ M, get_Q_matirx dim draws = Except.ok M ∧
      ∀ i < dim, ∀ j < dim, entry M i j = entry M j i := by
  refine ⟨Q_matrix dim draws, rfl, ?_⟩
  intro i hi j hj
  rw [entry_Q_matrix dim draws hi hj, entry_Q_matrix dim draws hj hi]
  rcases lt_trichotomy i j with h | h | h
  · have h1 : i ≤ j := h.le
    have h2 : ¬ j ≤ i := not_le.2 h
    have h3 : ¬ i = j := h.ne
    have h4 : ¬ j = i := h.ne'
    simp [h1, h2, h3, h4]
  · subst h
    rfl
  · have h1 : j ≤ i := h.le
    have h2 : ¬ i ≤ j := not_le.2 h
    have h3 : ¬ i = j := h.ne'
    have h4 : ¬ j = i := h.ne
    simp [h1, h2, h3, h4]

/-- Witness for C3 at `dim = 2`, bounds `[0, 10]`, draws `[1, 2, 3, 4]`. -/
theorem get_Q_matirx_symmetric_witness :
    ∃ M, get_Q_matirx 2 [1, 2, 3, 4] = Except.ok M ∧
      ∀ i < 2, ∀ j < 2, entry M i j = entry M j i :=
  get_Q_matirx_symmetric 2 0 10 [1, 2, 3, 4] (by norm_num) (by norm_num)
    (by norm_num) (by decide)

/-- C8 (amended): when a diagonal entry of the generated matrix is zero,
the hardness computation is NOT guarded: the corresponding normalized
covariance term divides by zero and is non-finite, yet `get_Q_matirx`
still returns the matrix normally — nothing raises. -/
theorem get_Q_matirx_zero_diagonal_unguarded (dim : ℕ) (draws : List ℚ) (i : ℕ)
    (hi : i < dim) (hz : entry (Q_matrix dim draws) i i = 0) :
    get_Q_matirx dim draws = Except.ok (Q_matrix dim draws) ∧
    ∃ t ∈ normalized_covariance (Q_matrix dim draws), t.isFinite = false := by
  refine ⟨rfl, ⟨entry (Q_matrix dim draws) i i,
    entry (Q_matrix dim draws) i i * entry (Q_matrix dim draws) i i⟩, ?_, ?_⟩
  · apply List.mem_flatMap.2
    refine ⟨i, List.mem_range.2 ?_, ?_⟩
    · rw [length_Q_matrix]
      exact hi
    · exact List.mem_map.2 ⟨i, List.mem_range.2 (Nat.lt_succ_self i), rfl⟩
  · rw [hz]
    simp [NCTerm.isFinite]

/-- The `1 × 1` matrix generated from the single draw `0` has a zero
diagonal entry. -/
lemma entry_Q_matrix_single_zero : entry (Q_matrix 1 [0]) 0 0 = 0 := by
  rw [entry_Q_matrix 1 [0] Nat.one_pos Nat.one_pos]
  have hR : entry (list_reshape [0] 1) 0 0 = 0 := rfl
  simp [hR]

/-- C8 counterexample: with `dim = 1`, `lower = 0 ≤ 0 ≤ 10 = upper` and
the draw `0`, the generated matrix has a zero diagonal entry; the claimed
`DomainError` (or a `lower > 0` guard) does not exist: the call returns
the matrix and the normalized covariance holds a non-finite term. -/
theorem get_Q_matirx_zero_diagonal_counterexample :
    ((0 : ℚ) ≤ 0 ∧ (0 : ℚ) ≤ 10) ∧
    get_Q_matirx 1 [0] = Except.ok (Q_matrix 1 [0]) ∧
    entry (Q_matrix 1 [0]) 0 0 = 0 ∧
    ∃ t ∈ normalized_covariance (Q_matrix 1 [0]), t.isFinite = false := by
  refine ⟨⟨le_refl 0, by norm_num⟩, rfl, entry_Q_matrix_single_zero,
    ⟨entry (Q_matrix 1 [0]) 0 0, entry (Q_matrix 1 [0]) 0 0 * entry (Q_matrix 1 [0]) 0 0⟩,
    ?_, ?_⟩
  · apply List.mem_flatMap.2
    refine ⟨0, List.mem_range.2 ?_, ?_⟩
    · rw [length_Q_matrix]
      norm_num
    · exact List.mem_map.2 ⟨0, List.mem_range.2 (by norm_num), rfl⟩
  · rw [entry_Q_matrix_single_zero]
    simp [NCTerm.isFinite]

/-- Witness for (amended) C8 at `dim = 1`, draws `[0]`. -/
theorem get_Q_matirx_zero_diagonal_unguarded_witness :
    (0 < 1 ∧ entry (Q_matrix 1 [0]) 0 0 = 0) ∧
    (get_Q_matirx 1 [0] = Except.ok (Q_matrix 1 [0]) ∧
     ∃ t ∈ normalized_covariance (Q_matrix 1 [0]), t.isFinite = false) :=
  ⟨⟨Nat.one_pos, entry_Q_matrix_single_zero⟩,
   get_Q_matirx_zero_diagonal_unguarded 1 [0] 0 Nat.one_pos entry_Q_matrix_single_zero⟩

/-- C1: for every square symmetric matrix, the ground-state record's
energy is ≤ the energy of every one of the `2^n` candidate binary
vectors. -/
theorem get_ground_state_energy_minimal (Q : List (List ℚ))
    (hsq : ∀ row ∈ Q, row.length = Q.length)
    (hsym : ∀ i < Q.length, ∀ j < Q.length, entry Q i j = entry Q j i)
    (k : ℕ) (hk : k < 2 ^ Q.length) :
    (get_ground_state Q).energy
      ≤ energy Q ((all_quantum_states Q.length).getD k []) := by
  set L := (all_quantum_states Q.length).map (energy Q) with hL
  have hlen : L.length = 2 ^ Q.length := length_energy_list Q
  have hk' : k < L.length := by rw [hlen]; exact hk
  have hne : L ≠ [] := by
    intro h
    rw [h] at hlen
    simp at hlen
    have hpos : 0 < 2 ^ Q.length := Nat.pos_pow_of_pos Q.length (by norm_num)
    omega
  have hstates : k < (all_quantum_states Q.length).length := by
    have : L.length = (all_quantum_states Q.length).length := List.length_map _ _
    omega
  rw [get_ground_state_energy_def, ← hL, getD_np_argmin L hne]
  calc listMin L ≤ L.getD k 0 := listMin_le_getD L k hk'
    _ = energy Q ((all_quantum_states Q.length).getD k []) := by
        rw [hL, getD_map_lt _ _ k hstates 0 []]

/-- Witness for C1 at the spec's concrete scenario `Q = [[2,0],[0,2]]`,
checked against candidate index `k = 3`. -/
theorem get_ground_state_energy_minimal_witness :
    3 < 2 ^ ([[(2 : ℚ), 0], [0, 2]] : List (List ℚ)).length ∧
    (get_ground_state [[(2 : ℚ), 0], [0, 2]]).energy ≤
      energy [[(2 : ℚ), 0], [0, 2]]
        ((all_quantum_states ([[(2 : ℚ), 0], [0, 2]] : List (List ℚ)).length).getD 3 []) :=
  ⟨by decide, get_ground_state_energy_minimal [[(2 : ℚ), 0], [0, 2]]
    (by decide) (by decide) 3 (by decide)⟩

/-- C5: any candidate whose energy equals the returned minimal energy has
decimal index ≥ the returned one — the search returns the first
occurrence in increasing-decimal enumeration order. -/
theorem get_ground_state_tie_smallest_index (Q : List (List ℚ))
    (hsq : ∀ row ∈ Q, row.length = Q.length)
    (hsym : ∀ i < Q.length, ∀ j < Q.length, entry Q i j = entry Q j i)
    (k : ℕ) (hk : k < 2 ^ Q.length)
    (htie : energy Q ((all_quantum_states Q.length).getD k [])
      = (get_ground_state Q).energy) :
    (get_ground_state Q).dec_state ≤ k := by
  set L := (all_quantum_states Q.length).map (energy Q) with hL
  have hlen : L.length = 2 ^ Q.length := length_energy_list Q
  have hk' : k < L.length := by rw [hlen]; exact hk
  have hne : L ≠ [] := by
    intro h
    rw [h] at hlen
    simp at hlen
    have hpos : 0 < 2 ^ Q.length := Nat.pos_pow_of_pos Q.length (by norm_num)
    omega
  have hstates : k < (all_quantum_states Q.length).length := by
    have : L.length = (all_quantum_states Q.length).length := List.length_map _ _
    omega
  rw [get_ground_state_dec_def, ← hL]
  apply np_argmin_first L k hk'
  have hgetD : L.getD k 0 = energy Q ((all_quantum_states Q.length).getD k []) := by
    rw [hL, getD_map_lt _ _ k hstates 0 []]
  rw [hgetD, htie, get_ground_state_energy_def, ← hL, getD_np_argmin L hne]

/-- Witness for C5: `Q = [[0,0],[0,1]]` has tied minimal energy `0` at
indices `0` and `1`; the returned index is ≤ 1. -/
theorem get_ground_state_tie_smallest_index_witness :
    1 < 2 ^ ([[(0 : ℚ), 0], [0, 1]] : List (List ℚ)).length ∧
    (get_ground_state [[(0 : ℚ), 0], [0, 1]]).dec_state ≤ 1 :=
  ⟨by decide, get_ground_state_tie_smallest_index [[(0 : ℚ), 0], [0, 1]]
    (by decide) (by decide) 1 (by decide)
    (by norm_num [get_ground_state, all_quantum_states, energy, np_dot, np_argmin,
      listMin, List.range_succ])⟩

/-- C10 (amended): for every square matrix of dimension `n ≥ 1`, the
ground-state record is internally consistent: `bin_state` has exactly
`n` binary digits, `dec_state < 2^n`, and reading `bin_state` as a
base-2 numeral gives back `dec_state`. -/
theorem get_ground_state_record_consistent (Q : List (List ℚ)) (hn : 1 ≤ Q.length) :
    (get_ground_state Q).bin_state.length = Q.length ∧
    (∀ d ∈ (get_ground_state Q).bin_state, d = 0 ∨ d = 1) ∧
    (get_ground_state Q).dec_state < 2 ^ Q.length ∧
    from_bin (get_ground_state Q).bin_state = (get_ground_state Q).dec_state := by
  set L := (all_quantum_states Q.length).map (energy Q) with hL
  have hlen : L.length = 2 ^ Q.length := length_energy_list Q
  have hne : L ≠ [] := by
    intro h
    rw [h] at hlen
    simp at hlen
    have hpos : 0 < 2 ^ Q.length := Nat.pos_pow_of_pos Q.length (by norm_num)
    omega
  have hdec : np_argmin L < 2 ^ Q.length := by
    have := np_argmin_lt_length L hne
    omega
  have hpy_len : (pyBin (np_argmin L)).length ≤ Q.length := by
    unfold pyBin
    split
    · simpa using hn
    · next h0 => exact bits_length_le Q.length (np_argmin L) hdec
  have hpy_val : from_bin (pyBin (np_argmin L)) = np_argmin L := by
    unfold pyBin
    split
    · next h0 => rw [h0]; rfl
    · exact from_bin_bits (np_argmin L)
  have hpy_digits : ∀ d ∈ pyBin (np_argmin L), d = 0 ∨ d = 1 := by
    unfold pyBin
    split
    · intro d hd
      left
      simpa using hd
    · exact bits_digits (np_argmin L)
  refine ⟨?_, ?_, ?_, ?_⟩
  · rw [get_ground_state_bin_def, ← hL]
    exact pad_left_length Q.length _ hpy_len
  · rw [get_ground_state_bin_def, ← hL]
    exact pad_left_digits Q.length _ hpy_digits
  · rw [get_ground_state_dec_def, ← hL]
    exact hdec
  · rw [get_ground_state_bin_def, get_ground_state_dec_def, ← hL,
      from_bin_pad_left]
    exact hpy_val

/-- C10 counterexample at the degenerate `0 × 0` matrix: the padded
binary string is `"0"`, of length 1 ≠ 0, so the record is not internally
consistent for dimension 0. -/
theorem get_ground_state_dim0_counterexample :
    (get_ground_state ([] : List (List ℚ))).bin_state.length = 1 ∧
    ([] : List (List ℚ)).length = 0 := ⟨rfl, rfl⟩

/-- Witness for (amended) C10 at `Q = [[2,0],[0,2]]`. -/
theorem get_ground_state_record_consistent_witness :
    1 ≤ ([[(2 : ℚ), 0], [0, 2]] : List (List ℚ)).length ∧
    ((get_ground_state [[(2 : ℚ), 0], [0, 2]]).bin_state.length
        = ([[(2 : ℚ), 0], [0, 2]] : List (List ℚ)).length ∧
      (∀ d ∈ (get_ground_state [[(2 : ℚ), 0], [0, 2]]).bin_state, d = 0 ∨ d = 1) ∧
      (get_ground_state [[(2 : ℚ), 0], [0, 2]]).dec_state
        < 2 ^ ([[(2 : ℚ), 0], [0, 2]] : List (List ℚ)).length ∧
      from_bin (get_ground_state [[(2 : ℚ), 0], [0, 2]]).bin_state
        = (get_ground_state [[(2 : ℚ), 0], [0, 2]]).dec_state) :=
  ⟨by decide, get_ground_state_record_consistent [[(2 : ℚ), 0], [0, 2]] (by decide)⟩

/-- C6: a scorer built by `build_scoring_function` fails with an
out-of-range error (scipy's `ValueError`, playing the spec's
`OutOfRangeError`) for `x < 0` or `x > 1`, and for `x ∈ [0,1]` returns
the linear interpolation between the two bracketing control points
`i/200` and `(i+1)/200` of the scoring curve. -/
theorem build_scoring_function_score_spec (data : List ℚ) (n_boxes : ℕ) (x : ℚ) :
    ((x < 0 ∨ 1 < x) →
      (build_scoring_function data n_boxes).score x = Except.error PyError.valueError) ∧
    (0 ≤ x → x ≤ 1 → ∃ i : ℕ, i < 200 ∧ (i : ℚ) / 200 ≤ x ∧ x ≤ ((i : ℚ) + 1) / 200 ∧
      (build_scoring_function data n_boxes).score x =
        Except.ok (fAdd (fMul (fDiv (fSub ((scoring_curve data).getD (i + 1) none)
          ((scoring_curve data).getD i none))
          (some (((i : ℚ) + 1) / 200 - (i : ℚ) / 200))) (some (x - (i : ℚ) / 200)))
          ((scoring_curve data).getD i none))) := by
  rw [build_scoring_function_eq]
  constructor
  · intro hx
    exact score_out_of_bounds (scoring_curve data) x hx
  · intro h0 h1
    exact interp_bracket (scoring_curve data) x h0 h1

/-- Witness for C6 with data `[9/10]`: out of range at `x = 3/2`, linear
interpolation at `x = 1/2`. -/
theorem build_scoring_function_score_spec_witness :
    ((3 / 2 : ℚ) < 0 ∨ 1 < (3 / 2 : ℚ)) ∧
    (build_scoring_function [9/10] 100).score (3/2) = Except.error PyError.valueError ∧
    ((0 : ℚ) ≤ 1/2 ∧ (1/2 : ℚ) ≤ 1) ∧
    (∃ i : ℕ, i < 200 ∧ (i : ℚ) / 200 ≤ 1/2 ∧ (1/2 : ℚ) ≤ ((i : ℚ) + 1) / 200 ∧
      (build_scoring_function [9/10] 100).score (1/2) =
        Except.ok (fAdd (fMul (fDiv (fSub ((scoring_curve [9/10]).getD (i + 1) none)
          ((scoring_curve [9/10]).getD i none))
          (some (((i : ℚ) + 1) / 200 - (i : ℚ) / 200))) (some (1/2 - (i : ℚ) / 200)))
          ((scoring_curve [9/10]).getD i none))) :=
  ⟨by norm_num,
   (build_scoring_function_score_spec [9/10] 100 (3/2)).1 (by norm_num),
   ⟨by norm_num, by norm_num⟩,
   (build_scoring_function_score_spec [9/10] 100 (1/2)).2 (by norm_num) (by norm_num)⟩

/-- C7 (amended): `build_scoring_function` on an empty sample set raises
nothing: the per-bin normalization divides the zero counts by the zero
sample count, so every cumulative value is NaN, the returned curve is
`0` followed by 200 NaNs, and every in-range score evaluates to NaN. -/
theorem build_scoring_function_empty_divides_by_zero (n_boxes : ℕ) (x : ℚ)
    (h0 : 0 ≤ x) (h1 : x ≤ 1) :
    scoring_curve [] = some 0 :: List.replicate 200 none ∧
    (build_scoring_function [] n_boxes).score x = Except.ok none := by
  have hcurve : scoring_curve [] = some 0 :: List.replicate 200 none := by
    set_option maxRecDepth 4000 in rfl
  refine ⟨hcurve, ?_⟩
  rw [build_scoring_function_eq]
  obtain ⟨i, hi, _, _, hscore⟩ := interp_bracket (scoring_curve []) x h0 h1
  rw [hscore]
  rcases i with _ | i
  · have hy1 : (scoring_curve []).getD (0 + 1) none = none := by
      rw [hcurve]
      exact getD_replicate_none 200 0
    have hy0 : (scoring_curve []).getD 0 none = some 0 := by
      rw [hcurve]
      rfl
    rw [hy1, hy0]
    rfl
  · have hylo : (scoring_curve []).getD (i + 1) none = none := by
      rw [hcurve]
      exact getD_replicate_none 200 i
    rw [hylo, fAdd_none_right]

/-- Witness for (amended) C7 at `x = 1/4`. -/
theorem build_scoring_function_empty_divides_by_zero_witness :
    ((0 : ℚ) ≤ 1/4 ∧ (1/4 : ℚ) ≤ 1) ∧
    (scoring_curve [] = some 0 :: List.replicate 200 none ∧
     (build_scoring_function [] 200).score (1/4) = Except.ok none) :=
  ⟨⟨by norm_num, by norm_num⟩,
   build_scoring_function_empty_divides_by_zero 200 (1/4) (by norm_num) (by norm_num)⟩

/-- C7 counterexample: on the empty sample set the scorer construction
completes normally — it returns the interpolator over the all-NaN curve;
in particular the normalization step `np.divide(hist_y, len(data))`
performs 200 divisions by zero instead of raising any error (and no
`InsufficientDataError` exists anywhere in the code). -/
theorem build_scoring_function_empty_no_error_counterexample :
    build_scoring_function [] 200
      = Scorer.mk (np_linspace01 200) (some 0 :: List.replicate 200 none) ∧
    np_divide_by (np_histogram [] (np_linspace01 200)) ([] : List ℚ).length
      = List.replicate 200 none := by
  constructor
  · set_option maxRecDepth 4000 in rfl
  · set_option maxRecDepth 4000 in rfl

/-- C9: the `n_boxes` parameter of `build_scoring_function` is dead —
the body overwrites it with 200 — so any two argument values produce the
same scorer. -/
theorem build_scoring_function_ignores_n_boxes (data : List ℚ) (a b : ℕ) :
    build_scoring_function data a = build_scoring_function data b := rfl

/-- C2 (code bug): `get_reference` can never return a curve at all — at
`np.divide(hist_y, accuracy_list.size)` it evaluates `.size` on a Python
`list`, which raises `AttributeError` — so the claimed agreement between
the reference curve and the scorer at the 201 control points is
unverifiable at runtime; evaluated here on the accuracy sample list
`[0.9, 0.95, 0.2, 0.9]`. -/
theorem get_reference_curve_raises_attributeerror :
    get_reference_curve [9/10, 19/20, 1/5, 9/10]
      = Except.error PyError.attributeError := rfl

/-- C4 (code bug): same failure, evaluated on the spec's own example
sample list `[0.1, 0.3, 0.6, 0.9]` — `get_reference` raises
`AttributeError` at `accuracy_list.size` before the cumulative curve
(201 entries, non-decreasing, leading 0) can be produced. -/
theorem get_reference_curve_never_returns :
    get_reference_curve [1/10, 3/10, 3/5, 9/10]
      = Except.error PyError.attributeError := rfl
